import Mathlib

/-!
Shallow embedding of `src/hdx/scraper/gcf/pipeline.py` (the GCF scraper's
record transformation and aggregation engine) and proofs about it.

Python mappings are embedded as structures whose optional keys are `Option`
fields (`none` = key absent); numbers are exact rationals; code that can
raise a Python exception returns `Except PyError`. The Python string
primitives the pipeline uses (`split`, `strip`, `rstrip`, `startswith`,
`replace`, `join`, `float`) are embedded structurally over the character
list of a string so that every definition evaluates inside the kernel.
-/

set_option maxHeartbeats 1000000

namespace GCF

/-- The Python exceptions the pipeline code can raise: `ZeroDivisionError`
from the funding split, `ValueError` from `float` and
`datetime.fromisoformat`, the parser error of the external
`hdx.utilities.dateparse.parse_date`, and `TypeError` from joining a list
containing `None`. -/
inductive PyError where
  | zeroDivisionError
  | valueError
  | parserError
  | typeError
  deriving DecidableEq

/-! ### Python string primitives, embedded over `List Char` -/

/-- Rebuild a `String` from its characters. -/
def ofChars (cs : List Char) : String := ⟨cs⟩

/-- Python `s.split(sep)` for a one-character separator: the groups of
characters between occurrences of `sep` (`"".split(sep)` is `[""]`). -/
def splitOnChar (sep : Char) : List Char → List (List Char)
  | [] => [[]]
  | c :: rest =>
    match splitOnChar sep rest with
    | [] => [[]]
    | g :: gs => if c = sep then [] :: g :: gs else (c :: g) :: gs

/-- Python `str.strip()`: drop whitespace from both ends. -/
def trimChars (cs : List Char) : List Char :=
  ((cs.dropWhile Char.isWhitespace).reverse.dropWhile Char.isWhitespace).reverse

/-- Python `s.rstrip("%")`: drop every trailing percent sign. -/
def rstripPercent (s : String) : String :=
  ofChars ((s.data.reverse.dropWhile (fun c => c = '%')).reverse)

/-- Python `s.startswith(p)`: `p` is a character prefix of `s`. -/
def pyStartsWith (s p : String) : Bool := p.data.isPrefixOf s.data

/-- Python `", ".join(xs)`, the accumulating loop. -/
def joinCommaGo (acc : String) : List String → String
  | [] => acc
  | a :: as => joinCommaGo (acc ++ ", " ++ a) as

/-- Python `", ".join(xs)`. -/
def joinComma : List String → String
  | [] => ""
  | a :: as => joinCommaGo a as

/-- Python `date.replace("Z", "+00:00")`: every `Z` character rewritten to
`+00:00`. -/
def replaceZ : List Char → List Char
  | [] => []
  | c :: rest =>
    if c = 'Z' then '+' :: '0' :: '0' :: ':' :: '0' :: '0' :: replaceZ rest
    else c :: replaceZ rest

/-- True when `cs` is a non-empty run of decimal digits. -/
def isDigitsL (cs : List Char) : Bool := !cs.isEmpty && cs.all Char.isDigit

/-- The value of a run of decimal digits. -/
def digitsVal (cs : List Char) : Nat :=
  cs.foldl (fun n c => n * 10 + (c.toNat - '0'.toNat)) 0

/-- Unsigned part of the modelled Python `float` parser: digits with an
optional single decimal point (accepting "12", "12.5", ".5", "12."). -/
def parseUnsignedFloat (t : List Char) : Option ℚ :=
  match splitOnChar '.' t with
  | [a] => if isDigitsL a then some (digitsVal a : ℚ) else none
  | [a, b] =>
    if (isDigitsL a || a.isEmpty) && (isDigitsL b || b.isEmpty) && !(a.isEmpty && b.isEmpty) then
      some ((digitsVal a : ℚ) + (digitsVal b : ℚ) / ((10 : ℚ) ^ b.length))
    else none
  | _ => none

/-- Model of Python `float(...)` on the percentage strings this feed
carries: surrounding whitespace stripped, an optional sign, then an
unsigned decimal literal; every other string is unparsable and raises
`ValueError` at the call site. Values are exact rationals. -/
def parsePyFloat (s : String) : Option ℚ :=
  match trimChars s.data with
  | '-' :: rest => (parseUnsignedFloat rest).map (fun q => -q)
  | '+' :: rest => parseUnsignedFloat rest
  | t => parseUnsignedFloat t

/-! ### Dates -/

/-- A calendar date as carried by a Python `datetime` (time of day dropped:
the pipeline only formats and compares the date part). -/
structure PyDate where
  year : Nat
  month : Nat
  day : Nat
  deriving DecidableEq

/-- Linearization giving the `datetime` order used by `min`/`max` in
`Pipeline._get_date_range`. -/
def PyDate.toKey (d : PyDate) : Nat := d.year * 10000 + d.month * 100 + d.day

/-- Python `min` on two dates (keeps the first argument on ties). -/
def dateMin (a b : PyDate) : PyDate := if b.toKey < a.toKey then b else a

/-- Python `max` on two dates (keeps the first argument on ties). -/
def dateMax (a b : PyDate) : PyDate := if a.toKey < b.toKey then b else a

/-- `datetime.strftime('%B')`: full English month name. -/
def monthName : Nat → String
  | 1 => "January"
  | 2 => "February"
  | 3 => "March"
  | 4 => "April"
  | 5 => "May"
  | 6 => "June"
  | 7 => "July"
  | 8 => "August"
  | 9 => "September"
  | 10 => "October"
  | 11 => "November"
  | 12 => "December"
  | _ => ""

/-- Month name back to its number, for the modelled `parse_date`. -/
def monthNumber : String → Option Nat
  | "January" => some 1
  | "February" => some 2
  | "March" => some 3
  | "April" => some 4
  | "May" => some 5
  | "June" => some 6
  | "July" => some 7
  | "August" => some 8
  | "September" => some 9
  | "October" => some 10
  | "November" => some 11
  | "December" => some 12
  | _ => none

/-- Model of Python `datetime.fromisoformat` on the timestamps this feed
carries: a `YYYY-MM-DD` prefix, optionally followed by a `T` or a space
and a time/offset suffix; anything else raises `ValueError`. -/
def fromisoformat (s : String) : Except PyError PyDate :=
  let core := s.data.take 10
  let rest := s.data.drop 10
  if rest = [] ∨ rest.head? = some 'T' ∨ rest.head? = some ' ' then
    match splitOnChar '-' core with
    | [y, m, d] =>
      if isDigitsL y ∧ y.length = 4 ∧ isDigitsL m ∧ m.length = 2 ∧
          isDigitsL d ∧ d.length = 2 ∧
          1 ≤ digitsVal m ∧ digitsVal m ≤ 12 ∧ 1 ≤ digitsVal d ∧ digitsVal d ≤ 31 then
        .ok ⟨digitsVal y, digitsVal m, digitsVal d⟩
      else .error .valueError
    | _ => .error .valueError
  else .error .valueError

/-- `Pipeline._format_date`: a missing or empty (falsy) date gives `None`;
otherwise the ISO timestamp, with every `Z` rewritten to `+00:00`, is
parsed and rendered as "Month D, YYYY"; an unparsable present value
raises. -/
def format_date (date : Option String) : Except PyError (Option String) :=
  match date with
  | none => .ok none
  | some s =>
    if s = "" then .ok none
    else
      match fromisoformat (ofChars (replaceZ s.data)) with
      | .error e => .error e
      | .ok d =>
        .ok (some (monthName d.month ++ " " ++ toString d.day ++ ", " ++ toString d.year))

/-- Model of the external collaborator `hdx.utilities.dateparse.parse_date`
on the date-string shape this pipeline emits: parses "Month D, YYYY" (the
output format of `format_date`) and raises its parser error on any string
it cannot parse. -/
def parse_date (s : String) : Except PyError PyDate :=
  match splitOnChar ' ' s.data with
  | [mon, dc, y] =>
    match splitOnChar ',' dc with
    | [d, []] =>
      match monthNumber (ofChars mon) with
      | some mn =>
        if isDigitsL d ∧ isDigitsL y ∧ 1 ≤ digitsVal d ∧ digitsVal d ≤ 31 then
          .ok ⟨digitsVal y, mn, digitsVal d⟩
        else .error .parserError
      | none => .error .parserError
    | _ => .error .parserError
  | _ => .error .parserError

/-- The loop of `Pipeline._get_date_range` on the rows' `"Approval Date"`
fields: skip a missing or empty (falsy) date, `parse_date` the rest; a
parse failure propagates. -/
def collect_dates : List (Option String) → Except PyError (List PyDate)
  | [] => .ok []
  | d :: rest =>
    match d with
    | none => collect_dates rest
    | some s =>
      if s = "" then collect_dates rest
      else
        match parse_date s with
        | .error e => .error e
        | .ok pd =>
          match collect_dates rest with
          | .error e => .error e
          | .ok tail => .ok (pd :: tail)

/-- `Pipeline._get_date_range`, each input row projected to its
`rec.get("Approval Date")` value (`none` when the key is missing). -/
def get_date_range (ds : List (Option String)) :
    Except PyError (Option PyDate × Option PyDate) :=
  match collect_dates ds with
  | .error e => .error e
  | .ok [] => .ok (none, none)
  | .ok (d :: rest) => .ok (some (rest.foldl dateMin d), some (rest.foldl dateMax d))

/-! ### The raw data model -/

/-- An element of a raw project record's `Countries` list; a field is
`none` when the key is absent. -/
structure CountryEntry where
  iso3 : Option String
  countryName : Option String
  region : Option String
  ldcs : Option Bool
  sids : Option Bool
  deriving DecidableEq

/-- An element of a raw project record's `Entities` list. -/
structure EntityEntry where
  acronym : Option String
  name : Option String
  access : Option String
  entityType : Option String
  sector : Option String
  deriving DecidableEq

/-- An element of a raw project record's `ResultAreas` list. -/
structure ResultAreaEntry where
  area : Option String
  value : Option String
  deriving DecidableEq

/-- A raw project record as fetched from the `/projects` feed, restricted
to the keys the pipeline reads. -/
structure ProjectRecord where
  approvedRef : Option String
  projectName : Option String
  entities : List EntityEntry
  countries : List CountryEntry
  boardMeeting : Option String
  sector : Option String
  theme : Option String
  size : Option String
  approvalDate : Option String
  dateCompletion : Option String
  riskCategory : Option String
  totalGCFFunding : Option ℚ
  resultAreas : List ResultAreaEntry
  status : Option String
  projectURL : Option String
  projectsID : Option String
  deriving DecidableEq

/-- A raw record with every optional key absent and every list empty; used
to build concrete test records. -/
def emptyRecord : ProjectRecord :=
  ⟨none, none, [], [], none, none, none, none, none, none, none, none, [], none, none, none⟩

/-! ### Activity Mapper -/

/-- One row of the funded-activities table built by
`Pipeline._get_activities_data`. `faFinancing` is `none` when
`TotalGCFFunding` is absent (the source defaults that cell to the empty
string). -/
structure ActivityRow where
  refNum : String
  modality : String
  projectName : Option String
  entity : Option String
  countries : String
  countryCodes : String
  boardMeeting : String
  sector : String
  theme : String
  projectSize : String
  approvalDate : Option String
  completionDate : Option String
  essCategory : String
  faFinancing : Option ℚ
  resultAreas : String
  status : String
  projectURL : String
  apiURL : String
  deriving DecidableEq

/-- The filter of the `ResultAreas` comprehension in
`_get_activities_data`: `a.get("Value") and float(a["Value"].rstrip("%")) > 0`.
A missing or empty (falsy) `Value` short-circuits to exclusion; a present
unparsable one raises `ValueError`. -/
def includeArea (a : ResultAreaEntry) : Except PyError Bool :=
  match a.value with
  | none => .ok false
  | some v =>
    if v = "" then .ok false
    else
      match parsePyFloat (rstripPercent v) with
      | none => .error .valueError
      | some q => .ok (decide (0 < q))

/-- The `ResultAreas` list comprehension of `_get_activities_data`: the
(possibly absent) `Area` values of the entries passing `includeArea`, left
to right. -/
def filterAreas : List ResultAreaEntry → Except PyError (List (Option String))
  | [] => .ok []
  | a :: rest =>
    match includeArea a with
    | .error e => .error e
    | .ok b =>
      match filterAreas rest with
      | .error e => .error e
      | .ok tail => .ok (if b then a.area :: tail else tail)

/-- Python `", ".join` over a list that may contain `None`: raises
`TypeError` on a `None` element. -/
def pyJoin (xs : List (Option String)) : Except PyError String :=
  if xs.all (fun x => x.isSome) then .ok (joinComma (xs.filterMap id))
  else .error .typeError

/-- The body of the loop in `Pipeline._get_activities_data`: one raw
project record to one activity row. (The update of the `_countries`
bookkeeping set is driver state read by no mapper and is omitted.) -/
def mapActivity (record : ProjectRecord) : Except PyError ActivityRow := do
  let entity : Option String :=
    match record.entities with
    | [] => none
    | e :: _ => e.acronym
  let names := record.countries.filterMap (fun c => c.countryName)
  let country_names := joinComma names
  let codes := record.countries.filterMap (fun c => c.iso3)
  let country_codes := joinComma codes
  let approval_date ← format_date record.approvalDate
  let completion_date ← format_date record.dateCompletion
  let ref_id := record.approvedRef.getD ""
  let modality :=
    if pyStartsWith ref_id "FP" then "FP"
    else if pyStartsWith ref_id "SAP" then "SAP"
    else ""
  let areas ← filterAreas record.resultAreas
  let result_areas ← pyJoin areas
  pure
    { refNum := ref_id
      modality := modality
      projectName := record.projectName
      entity := entity
      countries := country_names
      countryCodes := country_codes
      boardMeeting := record.boardMeeting.getD ""
      sector := record.sector.getD ""
      theme := record.theme.getD ""
      projectSize := record.size.getD ""
      approvalDate := approval_date
      completionDate := completion_date
      essCategory := record.riskCategory.getD ""
      faFinancing := record.totalGCFFunding
      resultAreas := result_areas
      status := record.status.getD ""
      projectURL := record.projectURL.getD ""
      apiURL := "http://api.gcfund.org/v1/projects/" ++ record.projectsID.getD "" }

/-- `Pipeline._get_activities_data` over an already-fetched record list:
the loop appends one mapped row per record, in input order; the first
failing record aborts the whole call. -/
def get_activities_data : List ProjectRecord → Except PyError (List ActivityRow)
  | [] => .ok []
  | r :: rest =>
    match mapActivity r with
    | .error e => .error e
    | .ok row =>
      match get_activities_data rest with
      | .error e => .error e
      | .ok tail => .ok (row :: tail)

/-! ### Country-Activity Grouper -/

/-- The comma split + strip + drop-empties applied to a row's
`Country Codes` string in `Pipeline.get_activities_by_country`. -/
def splitCodes (s : String) : List String :=
  ((splitOnChar ',' s.data).map (fun g => ofChars (trimChars g))).filter (fun c => c ≠ "")

/-- Lookup in an insertion-ordered association list (`k in d` / `d[k]`). -/
def find? {β : Type} (k : String) : List (String × β) → Option β
  | [] => none
  | (k', v) :: rest => if k' = k then some v else find? k rest

/-- Append `p` to the bucket of code `c`, creating the bucket at the end on
first appearance (`defaultdict(list)` keeps insertion order). -/
def addToBucket (st : List (String × List ActivityRow)) (c : String) (p : ActivityRow) :
    List (String × List ActivityRow) :=
  match st with
  | [] => [(c, [p])]
  | (k, ps) :: rest =>
    if k = c then (k, ps ++ [p]) :: rest else (k, ps) :: addToBucket rest c p

/-- The loop body of `Pipeline.get_activities_by_country` for one row: the
row is appended to the bucket of every code in its split `Country Codes`
string. -/
def addProject (st : List (String × List ActivityRow)) (p : ActivityRow) :
    List (String × List ActivityRow) :=
  (splitCodes p.countryCodes).foldl (fun s c => addToBucket s c p) st

/-- `Pipeline.get_activities_by_country` over already-mapped activity rows
(the source obtains them from `_get_activities_data`). -/
def get_activities_by_country (projects : List ActivityRow) :
    List (String × List ActivityRow) :=
  projects.foldl addProject []

/-- The rows grouped under code `c` (empty when the code has no bucket). -/
def bucket (st : List (String × List ActivityRow)) (c : String) : List ActivityRow :=
  (find? c st).getD []

/-! ### Country Aggregator -/

/-- One aggregate row of the countries table, keyed by ISO3. -/
structure CountryAgg where
  iso3 : String
  countryName : String
  region : String
  ldcs : Bool
  sids : Bool
  faFinancing : ℚ
  numFA : Nat
  approvalDate : Option String
  deriving DecidableEq

/-- Update the first (unique) binding of `k` in an insertion-ordered
association list, leaving every other binding in place. -/
def updateEntry {β : Type} (k : String) (f : β → β) :
    List (String × β) → List (String × β)
  | [] => []
  | (k', v) :: rest =>
    if k' = k then (k', f v) :: rest else (k', v) :: updateEntry k f rest

/-- `record.get("TotalGCFFunding", 0) or 0`: the record's funding, with
both an absent and a falsy value defaulting to 0. -/
def pyFunding (record : ProjectRecord) : ℚ := record.totalGCFFunding.getD 0

/-- The body of the inner loop of `_get_countries_data` for one country
entry: a falsy `ISO3` skips the entry; otherwise the aggregate row is
initialized from this entry on first occurrence and the record's
per-country share and count are added. -/
def countryStep (project_funding : ℚ) (approval_date : Option String)
    (st : List (String × CountryAgg)) (country : CountryEntry) :
    List (String × CountryAgg) :=
  match country.iso3 with
  | none => st
  | some iso3 =>
    if iso3 = "" then st
    else
      let init : CountryAgg :=
        { iso3 := iso3
          countryName := country.countryName.getD ""
          region := country.region.getD ""
          ldcs := country.ldcs.getD false
          sids := country.sids.getD false
          faFinancing := 0
          numFA := 0
          approvalDate := approval_date }
      let st' := if (find? iso3 st).isSome then st else st ++ [(iso3, init)]
      updateEntry iso3
        (fun e =>
          { e with faFinancing := e.faFinancing + project_funding, numFA := e.numFA + 1 })
        st'

/-- The inner loop of `_get_countries_data` over a record's country
entries. -/
def countriesInner (project_funding : ℚ) (approval_date : Option String)
    (st : List (String × CountryAgg)) (countries : List CountryEntry) :
    List (String × CountryAgg) :=
  countries.foldl (countryStep project_funding approval_date) st

/-- The body of the outer loop of `_get_countries_data` for one record:
the funding is divided by `len(countries)` before any guard, so an empty
`Countries` list raises `ZeroDivisionError`; then the approval date is
parsed and the inner loop folded over the country entries. -/
def countriesStep (st : List (String × CountryAgg)) (record : ProjectRecord) :
    Except PyError (List (String × CountryAgg)) :=
  if record.countries.length = 0 then .error .zeroDivisionError
  else
    match format_date record.approvalDate with
    | .error e => .error e
    | .ok approval_date =>
      let project_funding := pyFunding record / (record.countries.length : ℚ)
      .ok (countriesInner project_funding approval_date st record.countries)

/-- The outer loop of `_get_countries_data` from an arbitrary aggregation
state. -/
def countriesFold (st : List (String × CountryAgg)) :
    List ProjectRecord → Except PyError (List (String × CountryAgg))
  | [] => .ok st
  | r :: rest =>
    match countriesStep st r with
    | .error e => .error e
    | .ok st' => countriesFold st' rest

/-- `Pipeline._get_countries_data` over an already-fetched record list:
`list(aggregated_data.values())` of the final state. -/
def get_countries_data (records : List ProjectRecord) :
    Except PyError (List CountryAgg) :=
  match countriesFold [] records with
  | .error e => .error e
  | .ok st => .ok (st.map Prod.snd)

/-! ### Entity Aggregator -/

/-- One aggregate row of the entities table, keyed by acronym. -/
structure EntityAgg where
  entity : String
  name : String
  dae : String
  entityType : String
  sector : Option String
  numApproved : Nat
  faFinancing : ℚ
  approvalDate : Option String
  deriving DecidableEq

/-- The body of the inner loop of `_get_entities_data` for one entity
entry: a falsy `Acronym` skips the entry; otherwise the aggregate row is
initialized from this entry on first occurrence and the record's full
funding and count are added. -/
def entityStep (fa_financing : ℚ) (approval_date : Option String)
    (st : List (String × EntityAgg)) (entity : EntityEntry) :
    List (String × EntityAgg) :=
  match entity.acronym with
  | none => st
  | some acronym =>
    if acronym = "" then st
    else
      let init : EntityAgg :=
        { entity := entity.acronym.getD ""
          name := entity.name.getD ""
          dae := if entity.access = some "Direct" then "TRUE" else "FALSE"
          entityType := entity.entityType.getD ""
          sector := entity.sector
          numApproved := 0
          faFinancing := 0
          approvalDate := approval_date }
      let st' := if (find? acronym st).isSome then st else st ++ [(acronym, init)]
      updateEntry acronym
        (fun e =>
          { e with numApproved := e.numApproved + 1,
                   faFinancing := e.faFinancing + fa_financing })
        st'

/-- The inner loop of `_get_entities_data` over a record's entity
entries. -/
def entitiesInner (fa_financing : ℚ) (approval_date : Option String)
    (st : List (String × EntityAgg)) (entities : List EntityEntry) :
    List (String × EntityAgg) :=
  entities.foldl (entityStep fa_financing approval_date) st

/-- The body of the outer loop of `_get_entities_data` for one record: the
record's full, unsplit funding is attributed to every entity entry with a
truthy acronym. -/
def entitiesStep (st : List (String × EntityAgg)) (record : ProjectRecord) :
    Except PyError (List (String × EntityAgg)) :=
  match format_date record.approvalDate with
  | .error e => .error e
  | .ok approval_date =>
    .ok (entitiesInner (pyFunding record) approval_date st record.entities)

/-- The outer loop of `_get_entities_data` from an arbitrary aggregation
state. -/
def entitiesFold (st : List (String × EntityAgg)) :
    List ProjectRecord → Except PyError (List (String × EntityAgg))
  | [] => .ok st
  | r :: rest =>
    match entitiesStep st r with
    | .error e => .error e
    | .ok st' => entitiesFold st' rest

/-- `Pipeline._get_entities_data` over an already-fetched record list. -/
def get_entities_data (records : List ProjectRecord) :
    Except PyError (List EntityAgg) :=
  match entitiesFold [] records with
  | .error e => .error e
  | .ok st => .ok (st.map Prod.snd)

/-! ### Observation helpers used by the theorems -/

/-- The accumulated `FA Financing` of country `c` (0 when absent). -/
def cFin (st : List (String × CountryAgg)) (c : String) : ℚ :=
  match find? c st with
  | some e => e.faFinancing
  | none => 0

/-- The accumulated `# FA` of country `c` (0 when absent). -/
def cNum (st : List (String × CountryAgg)) (c : String) : Nat :=
  match find? c st with
  | some e => e.numFA
  | none => 0

/-- The accumulated `FA Financing` of entity `a` (0 when absent). -/
def eFin (st : List (String × EntityAgg)) (a : String) : ℚ :=
  match find? a st with
  | some e => e.faFinancing
  | none => 0

/-- The accumulated `# Approved` of entity `a` (0 when absent). -/
def eNum (st : List (String × EntityAgg)) (a : String) : Nat :=
  match find? a st with
  | some e => e.numApproved
  | none => 0

/-- Total `FA Financing` across all country aggregate rows. -/
def totalCFin (st : List (String × CountryAgg)) : ℚ :=
  (st.map (fun p => p.2.faFinancing)).sum

/-- Total `FA Financing` across all entity aggregate rows. -/
def totalEFin (st : List (String × EntityAgg)) : ℚ :=
  (st.map (fun p => p.2.faFinancing)).sum

/-- A country entry with a truthy `ISO3` (present and non-empty): exactly
the entries the inner loop of `_get_countries_data` does not skip. -/
def truthyIso3 (c : CountryEntry) : Bool :=
  match c.iso3 with
  | some s => decide (s ≠ "")
  | none => false

/-- An entity entry with a truthy `Acronym`: exactly the entries the inner
loop of `_get_entities_data` does not skip. -/
def truthyAcronym (e : EntityEntry) : Bool :=
  match e.acronym with
  | some s => decide (s ≠ "")
  | none => false

/-- An entity entry whose truthy acronym is exactly `a`. -/
def hasAcronym (a : String) (e : EntityEntry) : Bool :=
  decide (e.acronym = some a ∧ a ≠ "")

/-- The non-accumulator fields of two country aggregate rows agree. -/
def CountryMetaEq (e' e : CountryAgg) : Prop :=
  e'.iso3 = e.iso3 ∧ e'.countryName = e.countryName ∧ e'.region = e.region ∧
    e'.ldcs = e.ldcs ∧ e'.sids = e.sids ∧ e'.approvalDate = e.approvalDate

/-- The non-accumulator fields of two entity aggregate rows agree. -/
def EntityMetaEq (e' e : EntityAgg) : Prop :=
  e'.entity = e.entity ∧ e'.name = e.name ∧ e'.dae = e.dae ∧
    e'.entityType = e.entityType ∧ e'.sector = e.sector ∧
    e'.approvalDate = e.approvalDate

/-- The present, non-empty `Approval Date` strings of a row collection:
the rows `_get_date_range` does not skip. -/
def presentDates (ds : List (Option String)) : List String :=
  (ds.filterMap id).filter (fun s => s ≠ "")

/-- `(min, max)` of a parsed date list, `(none, none)` when it is empty. -/
def minmaxPair : List PyDate → Option PyDate × Option PyDate
  | [] => (none, none)
  | d :: rest => (some (rest.foldl dateMin d), some (rest.foldl dateMax d))

/-- The non-accumulator fields of country `c`'s aggregate row: key,
country name, region, LDC and SIDS flags, and first-seen approval date
(`none` when the key has no row). -/
def cMeta (st : List (String × CountryAgg)) (c : String) :
    Option (String × String × String × Bool × Bool × Option String) :=
  (find? c st).map (fun e => (e.iso3, e.countryName, e.region, e.ldcs, e.sids, e.approvalDate))

/-- The non-accumulator fields of entity `a`'s aggregate row: key, name,
DAE flag, type, sector, and first-seen approval date. -/
def eMeta (st : List (String × EntityAgg)) (a : String) :
    Option (String × String × String × String × Option String × Option String) :=
  (find? a st).map (fun e => (e.entity, e.name, e.dae, e.entityType, e.sector, e.approvalDate))

/-! ### Concrete inputs used by witnesses and counterexamples -/

/-- A record whose only `ResultAreas` entry has the unparsable percent
value "abc%". -/
def badPercentRecord : ProjectRecord :=
  { emptyRecord with resultAreas := [⟨some "Mitigation", some "abc%"⟩] }

/-- The end-to-end example record of the spec: `FP099`, funding 200,
Kenya and Uganda, approved 2019-03-01. -/
def kenUgaRecord : ProjectRecord :=
  { emptyRecord with
    approvedRef := some "FP099"
    totalGCFFunding := some 200
    countries :=
      [⟨some "KEN", some "Kenya", none, none, none⟩,
       ⟨some "UGA", some "Uganda", none, none, none⟩]
    approvalDate := some "2019-03-01T00:00:00Z" }

/-- The aggregation state after `_get_countries_data` processes
`kenUgaRecord` from an empty state. -/
def kenUgaState : List (String × CountryAgg) :=
  (countriesStep [] kenUgaRecord).toOption.getD []

/-- A record with two country entries of which only one carries an ISO3:
half of the funding is silently dropped. -/
def halfDroppedRecord : ProjectRecord :=
  { emptyRecord with
    totalGCFFunding := some 100
    countries :=
      [⟨some "KEN", some "Kenya", none, none, none⟩,
       ⟨none, some "Uganda", none, none, none⟩] }

/-- The aggregation state after `_get_countries_data` processes
`halfDroppedRecord` from an empty state. -/
def halfDroppedState : List (String × CountryAgg) :=
  (countriesStep [] halfDroppedRecord).toOption.getD []

/-- A record with three entity entries: two with acronyms ("ADB" direct
access, "UNDP") and one without any acronym. -/
def threeEntityRecord : ProjectRecord :=
  { emptyRecord with
    totalGCFFunding := some 200
    entities :=
      [⟨some "ADB", some "Asian Development Bank", some "Direct", some "International", none⟩,
       ⟨none, some "No Acronym Entity", none, none, none⟩,
       ⟨some "UNDP", none, none, none, none⟩] }

/-- The aggregation state after `_get_entities_data` processes
`threeEntityRecord` from an empty state. -/
def threeEntityState : List (String × EntityAgg) :=
  (entitiesStep [] threeEntityRecord).toOption.getD []

/-- A record that maps with only default values (all keys absent). -/
def fpRecord : ProjectRecord := { emptyRecord with approvedRef := some "FP099" }

/-- A blank activity row, used only as the default of an `Option.getD`. -/
def blankRow : ActivityRow :=
  ⟨"", "", none, none, "", "", "", "", "", "", none, none, "", none, "", "", "", ""⟩

/-- The activity row produced for `fpRecord`. -/
def fpRow : ActivityRow := (mapActivity fpRecord).toOption.getD blankRow

/-- A pre-seeded country aggregation state holding a "KEN" row. -/
def kenSeedState : List (String × CountryAgg) :=
  [("KEN", ⟨"KEN", "Kenya", "Africa", false, true, 7, 2, some "March 1, 2019"⟩)]

/-- A pre-seeded entity aggregation state holding an "ADB" row. -/
def adbSeedState : List (String × EntityAgg) :=
  [("ADB", ⟨"ADB", "Asian Development Bank", "FALSE", "International", some "Public", 3, 9, none⟩)]

/-- A record that mentions "KEN" and "ADB" again with disagreeing
metadata. -/
def disagreeingRecord : ProjectRecord :=
  { emptyRecord with
    totalGCFFunding := some 40
    countries := [⟨some "KEN", some "Republic of Kenya", some "Eastern Africa", some true, some false⟩]
    entities := [⟨some "ADB", some "AsDB", some "Direct", some "Regional", some "Private"⟩] }

/-- The country state after `disagreeingRecord` is folded over
`kenSeedState`. -/
def kenSeedState' : List (String × CountryAgg) :=
  (countriesFold kenSeedState [disagreeingRecord]).toOption.getD []

/-- The entity state after `disagreeingRecord` is folded over
`adbSeedState`. -/
def adbSeedState' : List (String × EntityAgg) :=
  (entitiesFold adbSeedState [disagreeingRecord]).toOption.getD []

/-! ### Association-list lemmas -/

theorem find?_updateEntry_self {β : Type} (k : String) (f : β → β) (s : List (String × β)) :
    find? k (updateEntry k f s) = (find? k s).map f := by
  induction s with
  | nil => rfl
  | cons p rest ih =>
    obtain ⟨k', v⟩ := p
    by_cases h : k' = k
    · simp [updateEntry, find?, h]
    · simp [updateEntry, find?, h, ih]

theorem find?_updateEntry_ne {β : Type} {d k : String} (h : d ≠ k) (f : β → β)
    (s : List (String × β)) : find? d (updateEntry k f s) = find? d s := by
  induction s with
  | nil => rfl
  | cons p rest ih =>
    obtain ⟨k', v⟩ := p
    by_cases hk : k' = k
    · have hkd : ¬(k = d) := fun hh => h hh.symm
      simp [updateEntry, find?, hk, hkd]
    · simp only [updateEntry, if_neg hk]
      by_cases hd : k' = d
      · simp [find?, hd]
      · simp [find?, hd, ih]

theorem find?_append_of_none {β : Type} {k : String} {s : List (String × β)}
    (h : find? k s = none) (t : List (String × β)) : find? k (s ++ t) = find? k t := by
  induction s with
  | nil => rfl
  | cons p rest ih =>
    obtain ⟨k', v⟩ := p
    by_cases hd : k' = k
    · simp [find?, hd] at h
    · simp only [find?, if_neg hd] at h
      simpa [find?, hd] using ih h

theorem find?_append_single_ne {β : Type} {d k : String} (h : d ≠ k)
    (s : List (String × β)) (v : β) : find? d (s ++ [(k, v)]) = find? d s := by
  have hkd : ¬(k = d) := fun hh => h hh.symm
  induction s with
  | nil => simp [find?, hkd]
  | cons p rest ih =>
    obtain ⟨k', v'⟩ := p
    by_cases hd : k' = d
    · simp [find?, hd]
    · simp [find?, hd, ih]

/-! ### Claim C5: the Date-Range Reducer -/

theorem presentDates_none (rest : List (Option String)) :
    presentDates (none :: rest) = presentDates rest := by
  simp [presentDates]

theorem presentDates_empty (rest : List (Option String)) :
    presentDates (some "" :: rest) = presentDates rest := by
  simp [presentDates]

theorem presentDates_some {s : String} (hs : s ≠ "") (rest : List (Option String)) :
    presentDates (some s :: rest) = s :: presentDates rest := by
  simp [presentDates, List.filter_cons, hs]

theorem collect_dates_eq_mapM (ds : List (Option String)) :
    collect_dates ds = (presentDates ds).mapM parse_date := by
  induction ds with
  | nil => rfl
  | cons d rest ih =>
    cases d with
    | none => rw [presentDates_none]; simpa [collect_dates] using ih
    | some s =>
      by_cases hs : s = ""
      · subst hs; rw [presentDates_empty]; simpa [collect_dates] using ih
      · rw [presentDates_some hs, List.mapM_cons]
        simp only [collect_dates, if_neg hs, ih]
        cases hp : parse_date s with
        | error e => simp [Bind.bind, Except.bind]
        | ok pd =>
          cases ht : (presentDates rest).mapM parse_date with
          | error e => simp [Bind.bind, Except.bind]
          | ok tail => simp [Bind.bind, Except.bind, Pure.pure, Except.pure]

/-- Claim C5 (amended): the Date-Range Reducer skips exactly the rows whose
`Approval Date` is missing or empty; every remaining date is re-parsed by
`parse_date`, whose failure on an unparsable present date propagates as an
error instead of excluding the row; the `(min, max)` pair (or
`(none, none)` when no row qualifies) is computed over the parsed dates. -/
theorem date_range_spec (ds : List (Option String)) :
    get_date_range ds = Except.map minmaxPair ((presentDates ds).mapM parse_date) := by
  rw [get_date_range, collect_dates_eq_mapM]
  cases h : (presentDates ds).mapM parse_date with
  | error e => simp [Except.map]
  | ok l => cases l <;> simp [Except.map, minmaxPair]

/-- Claim C5, counterexample to the claim as stated: a present but
unparsable "Approval Date" is not excluded from the comparison — it makes
the Date-Range Reducer raise (`parse_date` propagates its parser error),
instead of yielding the `(none, none)` the claim would demand here. -/
theorem date_range_unparsable_raises :
    get_date_range [some "notadate"] = Except.error PyError.parserError ∧
      get_date_range [some "notadate"] ≠ Except.ok (none, none) := by
  constructor
  · rfl
  · intro h
    cases h.symm.trans (rfl : get_date_range [some "notadate"] = Except.error PyError.parserError)

/-! ### Claim C6: the Country-Activity Grouper -/

theorem bucket_addToBucket_self (st : List (String × List ActivityRow)) (c : String)
    (p : ActivityRow) : bucket (addToBucket st c p) c = bucket st c ++ [p] := by
  induction st with
  | nil => simp [addToBucket, bucket, find?]
  | cons q rest ih =>
    obtain ⟨k, ps⟩ := q
    by_cases hk : k = c
    · simp [addToBucket, hk, bucket, find?]
    · simp [addToBucket, hk, bucket, find?, bucket] at ih ⊢
      exact ih

theorem bucket_addToBucket_ne {d c : String} (h : d ≠ c)
    (st : List (String × List ActivityRow)) (p : ActivityRow) :
    bucket (addToBucket st c p) d = bucket st d := by
  have hcd : ¬(c = d) := fun hh => h hh.symm
  induction st with
  | nil => simp [addToBucket, bucket, find?, hcd]
  | cons q rest ih =>
    obtain ⟨k, ps⟩ := q
    by_cases hk : k = c
    · simp [addToBucket, hk, bucket, find?, hcd]
    · by_cases hd : k = d
      · subst hd
        simp [addToBucket, hk, bucket, find?]
      · simp only [addToBucket, if_neg hk]
        simp [bucket, find?, hd] at ih ⊢
        exact ih

theorem mem_bucket_foldl (p : ActivityRow) (l : List String)
    (st : List (String × List ActivityRow)) (c : String) (r : ActivityRow) :
    r ∈ bucket (l.foldl (fun s c => addToBucket s c p) st) c ↔
      r ∈ bucket st c ∨ (r = p ∧ c ∈ l) := by
  induction l generalizing st with
  | nil => simp
  | cons a tl ih =>
    rw [List.foldl_cons, ih]
    by_cases hca : c = a
    · subst hca
      rw [bucket_addToBucket_self]
      constructor
      · rintro (hm | ⟨rfl, hm⟩)
        · rcases List.mem_append.mp hm with hm' | hm'
          · exact Or.inl hm'
          · exact Or.inr ⟨List.mem_singleton.mp hm', List.mem_cons_self _ _⟩
        · exact Or.inr ⟨rfl, List.mem_cons_of_mem _ hm⟩
      · rintro (hm | ⟨rfl, _⟩)
        · exact Or.inl (List.mem_append.mpr (Or.inl hm))
        · exact Or.inl (List.mem_append.mpr (Or.inr (List.mem_singleton.mpr rfl)))
    · rw [bucket_addToBucket_ne hca]
      constructor
      · rintro (hm | ⟨rfl, hm⟩)
        · exact Or.inl hm
        · exact Or.inr ⟨rfl, List.mem_cons_of_mem _ hm⟩
      · rintro (hm | ⟨rfl, hm⟩)
        · exact Or.inl hm
        · rcases List.mem_cons.mp hm with hca' | hm'
          · exact absurd hca' hca
          · exact Or.inr ⟨rfl, hm'⟩

theorem mem_bucket_addProject (st : List (String × List ActivityRow)) (p : ActivityRow)
    (c : String) (r : ActivityRow) :
    r ∈ bucket (addProject st p) c ↔
      r ∈ bucket st c ∨ (r = p ∧ c ∈ splitCodes p.countryCodes) :=
  mem_bucket_foldl p _ st c r

theorem mem_bucket_grouper (projects : List ActivityRow) (c : String) (r : ActivityRow) :
    r ∈ bucket (get_activities_by_country projects) c ↔
      r ∈ projects ∧ c ∈ splitCodes r.countryCodes := by
  suffices h : ∀ st, r ∈ bucket (projects.foldl addProject st) c ↔
      r ∈ bucket st c ∨ (r ∈ projects ∧ c ∈ splitCodes r.countryCodes) by
    simpa [bucket, find?, get_activities_by_country] using h []
  induction projects with
  | nil => simp
  | cons p ps ih =>
    intro st
    rw [List.foldl_cons, ih, mem_bucket_addProject]
    constructor
    · rintro ((hm | ⟨rfl, hm⟩) | ⟨hm, hc⟩)
      · exact Or.inl hm
      · exact Or.inr ⟨List.mem_cons_self _ _, hm⟩
      · exact Or.inr ⟨List.mem_cons_of_mem _ hm, hc⟩
    · rintro (hm | ⟨hm, hc⟩)
      · exact Or.inl (Or.inl hm)
      · rcases List.mem_cons.mp hm with rfl | hm'
        · exact Or.inl (Or.inr ⟨rfl, hc⟩)
        · exact Or.inr ⟨hm', hc⟩

/-- Claim C6: the Country-Activity Grouper places a row in exactly the
buckets of the codes obtained by splitting its `Country Codes` string on
commas, trimming whitespace and dropping empty segments; in particular a
row with `Country Codes` = "KEN, UGA" lands in the "KEN" and "UGA" buckets
and in no others. -/
theorem grouper_buckets :
    (∀ (projects : List ActivityRow) (c : String) (r : ActivityRow),
        r ∈ bucket (get_activities_by_country projects) c ↔
          r ∈ projects ∧ c ∈ splitCodes r.countryCodes) ∧
      splitCodes "KEN, UGA" = ["KEN", "UGA"] := by
  refine ⟨fun projects c r => mem_bucket_grouper projects c r, by decide⟩

/-! ### Claims C7, C8, C2: the Activity Mapper -/

theorem pyStartsWith_SAP_not_FP (s : String) (h : pyStartsWith s "SAP" = true) :
    pyStartsWith s "FP" = false := by
  unfold pyStartsWith at h ⊢
  obtain ⟨cs⟩ := s
  cases cs with
  | nil => simp [List.isPrefixOf] at h
  | cons c rest =>
    simp only [List.isPrefixOf, Bool.and_eq_true, beq_iff_eq] at h
    obtain ⟨rfl, _⟩ := h
    simp [List.isPrefixOf]

/-- Success characterization of the mapper's effectful steps: when a record
maps to a row, the row is the literal built from the record with the
successfully parsed dates and filtered result areas. -/
theorem mapActivity_ok (r : ProjectRecord) (row : ActivityRow)
    (h : mapActivity r = Except.ok row) :
    ∃ ad cd areas ra,
      format_date r.approvalDate = Except.ok ad ∧
      format_date r.dateCompletion = Except.ok cd ∧
      filterAreas r.resultAreas = Except.ok areas ∧
      pyJoin areas = Except.ok ra ∧
      row =
        { refNum := r.approvedRef.getD ""
          modality :=
            if pyStartsWith (r.approvedRef.getD "") "FP" then "FP"
            else if pyStartsWith (r.approvedRef.getD "") "SAP" then "SAP"
            else ""
          projectName := r.projectName
          entity :=
            match r.entities with
            | [] => none
            | e :: _ => e.acronym
          countries := joinComma (r.countries.filterMap (fun c => c.countryName))
          countryCodes := joinComma (r.countries.filterMap (fun c => c.iso3))
          boardMeeting := r.boardMeeting.getD ""
          sector := r.sector.getD ""
          theme := r.theme.getD ""
          projectSize := r.size.getD ""
          approvalDate := ad
          completionDate := cd
          essCategory := r.riskCategory.getD ""
          faFinancing := r.totalGCFFunding
          resultAreas := ra
          status := r.status.getD ""
          projectURL := r.projectURL.getD ""
          apiURL := "http://api.gcfund.org/v1/projects/" ++ r.projectsID.getD "" } := by
  unfold mapActivity at h
  simp only [Bind.bind, Except.bind] at h
  cases h1 : format_date r.approvalDate with
  | error e => rw [h1] at h; cases h
  | ok ad =>
    rw [h1] at h
    dsimp only at h
    cases h2 : format_date r.dateCompletion with
    | error e => rw [h2] at h; cases h
    | ok cd =>
      rw [h2] at h
      dsimp only at h
      cases h3 : filterAreas r.resultAreas with
      | error e => rw [h3] at h; cases h
      | ok areas =>
        rw [h3] at h
        dsimp only at h
        cases h4 : pyJoin areas with
        | error e => rw [h4] at h; cases h
        | ok ra =>
          rw [h4] at h
          simp only [Pure.pure, Except.pure, Except.ok.injEq] at h
          exact ⟨ad, cd, areas, ra, rfl, rfl, rfl, h4, h.symm⟩

/-- Claim C7: the Activity Mapper sets `Modality` to "FP" when
`ApprovedRef` starts with "FP", to "SAP" when it starts with "SAP", and to
the empty string otherwise; the match is on the exact characters, and an
absent or empty ref yields the empty string. -/
theorem modality_rule (r : ProjectRecord) (row : ActivityRow)
    (h : mapActivity r = Except.ok row) :
    (pyStartsWith (r.approvedRef.getD "") "FP" = true → row.modality = "FP") ∧
      (pyStartsWith (r.approvedRef.getD "") "SAP" = true → row.modality = "SAP") ∧
      (pyStartsWith (r.approvedRef.getD "") "FP" = false →
        pyStartsWith (r.approvedRef.getD "") "SAP" = false → row.modality = "") ∧
      (r.approvedRef = none ∨ r.approvedRef = some "" → row.modality = "") := by
  obtain ⟨ad, cd, areas, ra, _, _, _, _, hrow⟩ := mapActivity_ok r row h
  subst hrow
  refine ⟨fun hfp => by simp [hfp], fun hsap => ?_, fun hnfp hnsap => by simp [hnfp, hnsap], ?_⟩
  · have hnfp := pyStartsWith_SAP_not_FP _ hsap
    simp [hnfp, hsap]
  · rintro (habs | hemp)
    · simp [habs, pyStartsWith, List.isPrefixOf, Option.getD]
    · simp [hemp, pyStartsWith, List.isPrefixOf, Option.getD]

/-- Claim C8: when the Activity Mapper succeeds on a record sequence it
returns exactly one row per input record, in input order, each row being
the mapping of the corresponding record (no filtering or merging). -/
theorem activities_one_to_one (records : List ProjectRecord) (rows : List ActivityRow)
    (h : get_activities_data records = Except.ok rows) :
    rows.length = records.length ∧
      List.Forall₂ (fun rec row => mapActivity rec = Except.ok row) records rows := by
  induction records generalizing rows with
  | nil =>
    simp only [get_activities_data, Except.ok.injEq] at h
    subst h
    exact ⟨rfl, List.Forall₂.nil⟩
  | cons r rest ih =>
    unfold get_activities_data at h
    cases hm : mapActivity r with
    | error e => rw [hm] at h; cases h
    | ok row0 =>
      rw [hm] at h
      cases ht : get_activities_data rest with
      | error e => rw [ht] at h; cases h
      | ok tail =>
        rw [ht] at h
        simp only [Except.ok.injEq] at h
        subst h
        obtain ⟨hlen, hall⟩ := ih tail ht
        exact ⟨by simp [hlen], List.Forall₂.cons hm hall⟩

theorem filterAreas_error {l : List ResultAreaEntry} {a : ResultAreaEntry} {v : String}
    (ha : a ∈ l) (hv : a.value = some v) (hne : v ≠ "")
    (hbad : parsePyFloat (rstripPercent v) = none) :
    ∃ e, filterAreas l = Except.error e := by
  induction l with
  | nil => cases ha
  | cons b rest ih =>
    rcases List.mem_cons.mp ha with rfl | hmem
    · refine ⟨PyError.valueError, ?_⟩
      simp [filterAreas, includeArea, hv, hne, hbad]
    · cases hb : includeArea b with
      | error e => exact ⟨e, by simp [filterAreas, hb]⟩
      | ok bb =>
        obtain ⟨e, he⟩ := ih hmem
        exact ⟨e, by simp [filterAreas, hb, he]⟩

/-- Claim C2 (amended): a `ResultAreas` entry whose `Value` is present and
truthy but not parseable as a number makes the Activity Mapper raise
(`float` raises `ValueError`), so the record maps to no row at all — the
entry is not silently excluded from the joined `Result Areas` string. -/
theorem malformed_percent_raises (r : ProjectRecord) (a : ResultAreaEntry) (v : String)
    (ha : a ∈ r.resultAreas) (hv : a.value = some v) (hne : v ≠ "")
    (hbad : parsePyFloat (rstripPercent v) = none) :
    ∃ e, mapActivity r = Except.error e := by
  obtain ⟨e3, he3⟩ := filterAreas_error ha hv hne hbad
  unfold mapActivity
  simp only [Bind.bind, Except.bind]
  cases h1 : format_date r.approvalDate with
  | error e => exact ⟨e, rfl⟩
  | ok ad =>
    cases h2 : format_date r.dateCompletion with
    | error e => exact ⟨e, rfl⟩
    | ok cd => exact ⟨e3, by rw [he3]⟩

/-- Claim C2, counterexample to the claim as stated: the mapper raises on
a record whose only `ResultAreas` entry carries the unparsable value
"abc%" instead of excluding the entry. -/
theorem malformed_percent_counterexample :
    get_activities_data
        [{ emptyRecord with resultAreas := [⟨some "Mitigation", some "abc%"⟩] }] =
      Except.error PyError.valueError := rfl

/-- Witness for claim C2's amended theorem at `badPercentRecord`. -/
theorem malformed_percent_raises_witness :
    ∃ e, mapActivity badPercentRecord = Except.error e :=
  malformed_percent_raises badPercentRecord ⟨some "Mitigation", some "abc%"⟩ "abc%"
    (List.mem_singleton.mpr rfl) rfl (by decide) rfl

/-! ### Country Aggregator lemmas -/

theorem totalCFin_cons (k : String) (v : CountryAgg) (rest : List (String × CountryAgg)) :
    totalCFin ((k, v) :: rest) = v.faFinancing + totalCFin rest := by
  simp [totalCFin]

theorem totalCFin_append_single (st : List (String × CountryAgg)) (x : String × CountryAgg) :
    totalCFin (st ++ [x]) = totalCFin st + x.2.faFinancing := by
  simp [totalCFin]

theorem totalCFin_updateEntry (st : List (String × CountryAgg)) (k : String) (pf : ℚ)
    (h : (find? k st).isSome) :
    totalCFin (updateEntry k
        (fun e => { e with faFinancing := e.faFinancing + pf, numFA := e.numFA + 1 }) st) =
      totalCFin st + pf := by
  induction st with
  | nil => simp [find?] at h
  | cons p rest ih =>
    obtain ⟨k', v⟩ := p
    by_cases hk : k' = k
    · rw [updateEntry, if_pos hk, totalCFin_cons, totalCFin_cons]
      ring
    · have h' : (find? k rest).isSome := by
        rw [find?, if_neg hk] at h
        exact h
      rw [updateEntry, if_neg hk, totalCFin_cons, totalCFin_cons, ih h']
      ring

theorem countryStep_skip (pf : ℚ) (ad : Option String) (st : List (String × CountryAgg))
    (country : CountryEntry) (h : truthyIso3 country = false) :
    countryStep pf ad st country = st := by
  unfold countryStep
  cases hc : country.iso3 with
  | none => rfl
  | some s =>
    have hs : s = "" := by simpa [truthyIso3, hc] using h
    dsimp only
    rw [if_pos hs]

theorem countryStep_find?_self (pf : ℚ) (ad : Option String) (st : List (String × CountryAgg))
    (country : CountryEntry) (c : String) (hc : country.iso3 = some c) (hne : c ≠ "") :
    find? c (countryStep pf ad st country) =
      some (match find? c st with
        | some e => { e with faFinancing := e.faFinancing + pf, numFA := e.numFA + 1 }
        | none =>
          { iso3 := c
            countryName := country.countryName.getD ""
            region := country.region.getD ""
            ldcs := country.ldcs.getD false
            sids := country.sids.getD false
            faFinancing := 0 + pf
            numFA := 0 + 1
            approvalDate := ad }) := by
  unfold countryStep
  rw [hc]
  dsimp only
  rw [if_neg hne]
  by_cases hfs : (find? c st).isSome = true
  · rw [if_pos hfs, find?_updateEntry_self]
    obtain ⟨e, hf⟩ := Option.isSome_iff_exists.mp hfs
    rw [hf]
    rfl
  · rw [if_neg hfs, find?_updateEntry_self]
    have hnone : find? c st = none := Option.not_isSome_iff_eq_none.mp hfs
    rw [find?_append_of_none hnone, find?, if_pos rfl, hnone]
    rfl

theorem countryStep_find?_ne (pf : ℚ) (ad : Option String) (st : List (String × CountryAgg))
    (country : CountryEntry) (d : String)
    (h : ∀ c, country.iso3 = some c → c ≠ "" → d ≠ c) :
    find? d (countryStep pf ad st country) = find? d st := by
  unfold countryStep
  cases hc : country.iso3 with
  | none => rfl
  | some s =>
    dsimp only
    by_cases hs : s = ""
    · rw [if_pos hs]
    · rw [if_neg hs]
      have hd : d ≠ s := h s hc hs
      by_cases hf : (find? s st).isSome
      · rw [if_pos hf, find?_updateEntry_ne hd]
      · rw [if_neg hf, find?_updateEntry_ne hd, find?_append_single_ne hd]

theorem countryStep_cFin_self (pf : ℚ) (ad : Option String) (st : List (String × CountryAgg))
    (country : CountryEntry) (c : String) (hc : country.iso3 = some c) (hne : c ≠ "") :
    cFin (countryStep pf ad st country) c = cFin st c + pf := by
  unfold cFin
  rw [countryStep_find?_self pf ad st country c hc hne]
  cases hf : find? c st <;> simp [hf]

theorem countryStep_cNum_self (pf : ℚ) (ad : Option String) (st : List (String × CountryAgg))
    (country : CountryEntry) (c : String) (hc : country.iso3 = some c) (hne : c ≠ "") :
    cNum (countryStep pf ad st country) c = cNum st c + 1 := by
  unfold cNum
  rw [countryStep_find?_self pf ad st country c hc hne]
  cases hf : find? c st <;> simp [hf]

theorem countryStep_total (pf : ℚ) (ad : Option String) (st : List (String × CountryAgg))
    (country : CountryEntry) :
    totalCFin (countryStep pf ad st country) =
      totalCFin st + (if truthyIso3 country then pf else 0) := by
  cases htr : truthyIso3 country with
  | false => rw [countryStep_skip pf ad st country htr]; simp
  | true =>
    obtain ⟨c, hc, hne⟩ : ∃ c, country.iso3 = some c ∧ c ≠ "" := by
      unfold truthyIso3 at htr
      cases hc : country.iso3 with
      | none => rw [hc] at htr; cases htr
      | some s =>
        rw [hc] at htr
        exact ⟨s, rfl, by simpa using htr⟩
    unfold countryStep
    rw [hc]
    dsimp only
    rw [if_neg hne]
    by_cases hf : (find? c st).isSome
    · rw [if_pos hf, totalCFin_updateEntry _ _ _ hf]
      simp
    · rw [if_neg hf]
      have hnone : find? c st = none := by
        cases hfc : find? c st
        · rfl
        · rw [hfc] at hf; simp at hf
      have hsome : (find? c (st ++
          [(c, { iso3 := c
                 countryName := country.countryName.getD ""
                 region := country.region.getD ""
                 ldcs := country.ldcs.getD false
                 sids := country.sids.getD false
                 faFinancing := 0
                 numFA := 0
                 approvalDate := ad })])).isSome := by
        rw [find?_append_of_none hnone]
        simp [find?]
      rw [totalCFin_updateEntry _ _ _ hsome, totalCFin_append_single]
      simp

theorem countriesInner_total (pf : ℚ) (ad : Option String) (countries : List CountryEntry)
    (st : List (String × CountryAgg)) :
    totalCFin (countriesInner pf ad st countries) =
      totalCFin st + (countries.countP truthyIso3 : ℚ) * pf := by
  induction countries generalizing st with
  | nil => simp [countriesInner]
  | cons co cos ih =>
    simp only [countriesInner, List.foldl_cons] at ih ⊢
    rw [ih, countryStep_total, List.countP_cons]
    cases h : truthyIso3 co with
    | false => simp [h]
    | true =>
      simp only [h, if_true]
      push_cast
      ring

theorem countriesInner_frame (pf : ℚ) (ad : Option String) (countries : List CountryEntry)
    (st : List (String × CountryAgg)) (d : String)
    (h : ∀ entry ∈ countries, ∀ c, entry.iso3 = some c → c ≠ "" → d ≠ c) :
    find? d (countriesInner pf ad st countries) = find? d st := by
  induction countries generalizing st with
  | nil => rfl
  | cons co cos ih =>
    simp only [countriesInner, List.foldl_cons] at ih ⊢
    rw [ih _ (fun entry hm => h entry (List.mem_cons_of_mem _ hm)),
      countryStep_find?_ne pf ad st co d (h co (List.mem_cons_self _ _))]

theorem countriesInner_delta (pf : ℚ) (ad : Option String) (countries : List CountryEntry)
    (codes : List String)
    (hcodes : countries.map (fun c => c.iso3) = codes.map some)
    (hne : ∀ c ∈ codes, c ≠ "") (hnd : codes.Nodup)
    (st : List (String × CountryAgg)) :
    ∀ c ∈ codes,
      cFin (countriesInner pf ad st countries) c = cFin st c + pf ∧
      cNum (countriesInner pf ad st countries) c = cNum st c + 1 := by
  induction countries generalizing codes st with
  | nil =>
    cases codes with
    | nil => intro c hc; cases hc
    | cons c0 cs => simp at hcodes
  | cons co cos ih =>
    cases codes with
    | nil => simp at hcodes
    | cons c0 cs =>
      simp only [List.map_cons, List.cons.injEq] at hcodes
      obtain ⟨hc0, hrest⟩ := hcodes
      have hc0ne : c0 ≠ "" := hne c0 (List.mem_cons_self _ _)
      have hnd' := List.nodup_cons.mp hnd
      intro c hc
      simp only [countriesInner, List.foldl_cons] at ih ⊢
      rcases List.mem_cons.mp hc with rfl | hcs
      · have hframe :
            find? c (countriesInner pf ad (countryStep pf ad st co) cos) =
              find? c (countryStep pf ad st co) := by
          apply countriesInner_frame
          intro entry hent c' he' hne' hceq
          have hmem : entry.iso3 ∈ cos.map (fun x => x.iso3) := List.mem_map_of_mem _ hent
          rw [hrest] at hmem
          obtain ⟨c'', hc''mem, hc''eq⟩ := List.mem_map.mp hmem
          rw [he'] at hc''eq
          obtain rfl : c'' = c' := by injection hc''eq
          rw [← hceq] at hc''mem
          exact hnd'.1 hc''mem
        constructor
        · show cFin (countriesInner pf ad (countryStep pf ad st co) cos) c = _
          unfold cFin
          rw [hframe]
          have := countryStep_cFin_self pf ad st co c hc0 hc0ne
          unfold cFin at this
          exact this
        · show cNum (countriesInner pf ad (countryStep pf ad st co) cos) c = _
          unfold cNum
          rw [hframe]
          have := countryStep_cNum_self pf ad st co c hc0 hc0ne
          unfold cNum at this
          exact this
      · have hcne : c ≠ c0 := by
          intro hcc
          rw [hcc] at hcs
          exact hnd'.1 hcs
        have hstep : find? c (countryStep pf ad st co) = find? c st := by
          apply countryStep_find?_ne
          intro c' hc' hne'
          rw [hc0] at hc'
          obtain rfl : c0 = c' := by injection hc'
          exact hcne
        have hih := ih cs hrest (fun x hx => hne x (List.mem_cons_of_mem _ hx)) hnd'.2
          (countryStep pf ad st co) c hcs
        constructor
        · rw [hih.1]
          unfold cFin
          rw [hstep]
        · rw [hih.2]
          unfold cNum
          rw [hstep]

theorem countriesStep_ok {st : List (String × CountryAgg)} {r : ProjectRecord}
    {st' : List (String × CountryAgg)} (hok : countriesStep st r = Except.ok st') :
    r.countries.length ≠ 0 ∧
      ∃ ad, format_date r.approvalDate = Except.ok ad ∧
        st' = countriesInner (pyFunding r / (r.countries.length : ℚ)) ad st r.countries := by
  unfold countriesStep at hok
  by_cases hlen : r.countries.length = 0
  · rw [if_pos hlen] at hok; cases hok
  · rw [if_neg hlen] at hok
    cases hfd : format_date r.approvalDate with
    | error e => rw [hfd] at hok; cases hok
    | ok ad =>
      rw [hfd] at hok
      dsimp only at hok
      simp only [Except.ok.injEq] at hok
      exact ⟨hlen, ad, rfl, hok.symm⟩

/-! ### Claims C1, C3, C10 -/

/-- Claim C1 (evaluation at the failing input): a project record whose
`Countries` list is empty makes `_get_countries_data` raise
`ZeroDivisionError` — the division by `len(countries)` runs before any
guard — instead of being skipped and contributing 0 to every country's
aggregate as the spec's zero-country guard requires. -/
theorem empty_countries_raises :
    get_countries_data [{ emptyRecord with totalGCFFunding := some 100 }] =
      Except.error PyError.zeroDivisionError := rfl

/-- Claim C3: for a record with a non-empty list of countries all carrying
distinct, non-empty ISO3 codes, a successful aggregation step adds exactly
`F / n` to each listed country's `FA Financing`, adds 1 to each listed
country's `# FA`, and the attributed shares over the record's countries
sum to exactly `F`. -/
theorem country_split_conservation (st : List (String × CountryAgg)) (r : ProjectRecord)
    (st' : List (String × CountryAgg)) (codes : List String)
    (hok : countriesStep st r = Except.ok st')
    (hcodes : r.countries.map (fun c => c.iso3) = codes.map some)
    (hne : ∀ c ∈ codes, c ≠ "") (hnd : codes.Nodup) :
    (∀ c ∈ codes,
        cFin st' c = cFin st c + pyFunding r / (r.countries.length : ℚ) ∧
        cNum st' c = cNum st c + 1) ∧
      (codes.map (fun c => cFin st' c - cFin st c)).sum = pyFunding r := by
  obtain ⟨hlen, ad, had, hst⟩ := countriesStep_ok hok
  subst hst
  have hdelta := countriesInner_delta (pyFunding r / (r.countries.length : ℚ)) ad
    r.countries codes hcodes hne hnd st
  refine ⟨hdelta, ?_⟩
  have hmap : codes.map
      (fun c => cFin (countriesInner (pyFunding r / (r.countries.length : ℚ)) ad st
          r.countries) c - cFin st c) =
      codes.map (fun _ => pyFunding r / (r.countries.length : ℚ)) :=
    List.map_congr_left (fun c hcmem => by rw [(hdelta c hcmem).1]; ring)
  rw [hmap, List.map_const', List.sum_replicate]
  have hlencodes : codes.length = r.countries.length := by
    have hh := congrArg List.length hcodes
    simpa using hh.symm
  have hn : ((r.countries.length : ℕ) : ℚ) ≠ 0 := Nat.cast_ne_zero.mpr hlen
  rw [hlencodes, nsmul_eq_mul, mul_comm]
  exact div_mul_cancel₀ _ hn

/-- Claim C10: the per-country divisor is the full length of the
`Countries` list, entries lacking an ISO3 included; a successful step on a
record with `n` country entries of which `k` are truthy attributes
`k · (F / n)` in total across all aggregates — the shares of skipped
entries are dropped, not redistributed. -/
theorem skipped_share_dropped (st : List (String × CountryAgg)) (r : ProjectRecord)
    (st' : List (String × CountryAgg)) (hok : countriesStep st r = Except.ok st') :
    totalCFin st' = totalCFin st +
      (r.countries.countP truthyIso3 : ℚ) * (pyFunding r / (r.countries.length : ℚ)) := by
  obtain ⟨hlen, ad, had, hst⟩ := countriesStep_ok hok
  subst hst
  exact countriesInner_total _ ad r.countries st

/-! ### Entity Aggregator lemmas -/

theorem totalEFin_cons (k : String) (v : EntityAgg) (rest : List (String × EntityAgg)) :
    totalEFin ((k, v) :: rest) = v.faFinancing + totalEFin rest := by
  simp [totalEFin]

theorem totalEFin_append_single (st : List (String × EntityAgg)) (x : String × EntityAgg) :
    totalEFin (st ++ [x]) = totalEFin st + x.2.faFinancing := by
  simp [totalEFin]

theorem totalEFin_updateEntry (st : List (String × EntityAgg)) (k : String) (fa : ℚ)
    (h : (find? k st).isSome = true) :
    totalEFin (updateEntry k
        (fun e => { e with numApproved := e.numApproved + 1,
                           faFinancing := e.faFinancing + fa }) st) =
      totalEFin st + fa := by
  induction st with
  | nil => simp [find?] at h
  | cons p rest ih =>
    obtain ⟨k', v⟩ := p
    by_cases hk : k' = k
    · rw [updateEntry, if_pos hk, totalEFin_cons, totalEFin_cons]
      ring
    · have h' : (find? k rest).isSome := by
        rw [find?, if_neg hk] at h
        exact h
      rw [updateEntry, if_neg hk, totalEFin_cons, totalEFin_cons, ih h']
      ring

theorem entityStep_skip (fa : ℚ) (ad : Option String) (st : List (String × EntityAgg))
    (entity : EntityEntry) (h : truthyAcronym entity = false) :
    entityStep fa ad st entity = st := by
  unfold entityStep
  cases hc : entity.acronym with
  | none => rfl
  | some s =>
    have hs : s = "" := by simpa [truthyAcronym, hc] using h
    dsimp only
    rw [if_pos hs]

theorem entityStep_find?_self (fa : ℚ) (ad : Option String) (st : List (String × EntityAgg))
    (entity : EntityEntry) (a : String) (hc : entity.acronym = some a) (hne : a ≠ "") :
    find? a (entityStep fa ad st entity) =
      some (match find? a st with
        | some e => { e with numApproved := e.numApproved + 1,
                             faFinancing := e.faFinancing + fa }
        | none =>
          { entity := entity.acronym.getD ""
            name := entity.name.getD ""
            dae := if entity.access = some "Direct" then "TRUE" else "FALSE"
            entityType := entity.entityType.getD ""
            sector := entity.sector
            numApproved := 0 + 1
            faFinancing := 0 + fa
            approvalDate := ad }) := by
  unfold entityStep
  rw [hc]
  dsimp only
  rw [if_neg hne]
  by_cases hfs : (find? a st).isSome = true
  · rw [if_pos hfs, find?_updateEntry_self]
    obtain ⟨e, hf⟩ := Option.isSome_iff_exists.mp hfs
    rw [hf]
    rfl
  · rw [if_neg hfs, find?_updateEntry_self]
    have hnone : find? a st = none := Option.not_isSome_iff_eq_none.mp hfs
    rw [find?_append_of_none hnone, find?, if_pos rfl, hnone]
    rfl

theorem entityStep_find?_ne (fa : ℚ) (ad : Option String) (st : List (String × EntityAgg))
    (entity : EntityEntry) (d : String)
    (h : ∀ a, entity.acronym = some a → a ≠ "" → d ≠ a) :
    find? d (entityStep fa ad st entity) = find? d st := by
  unfold entityStep
  cases hc : entity.acronym with
  | none => rfl
  | some s =>
    dsimp only
    by_cases hs : s = ""
    · rw [if_pos hs]
    · rw [if_neg hs]
      have hd : d ≠ s := h s hc hs
      by_cases hf : (find? s st).isSome
      · rw [if_pos hf, find?_updateEntry_ne hd]
      · rw [if_neg hf, find?_updateEntry_ne hd, find?_append_single_ne hd]

theorem entityStep_eFin (fa : ℚ) (ad : Option String) (st : List (String × EntityAgg))
    (entity : EntityEntry) (a : String) :
    eFin (entityStep fa ad st entity) a =
      eFin st a + (if hasAcronym a entity then fa else 0) := by
  cases hc : entity.acronym with
  | none =>
    have hst : entityStep fa ad st entity = st := by unfold entityStep; rw [hc]
    have hh : hasAcronym a entity = false := by simp [hasAcronym, hc]
    rw [hst, hh]
    simp
  | some b =>
    by_cases hb : b = ""
    · have hst : entityStep fa ad st entity = st := by
        unfold entityStep; rw [hc]; dsimp only; rw [if_pos hb]
      have hh : hasAcronym a entity = false := by
        subst hb
        simp only [hasAcronym, hc, decide_eq_false_iff_not, not_and]
        intro h1 h2
        obtain rfl : "" = a := by injection h1
        exact h2 rfl
      rw [hst, hh]
      simp
    · by_cases hab : a = b
      · subst hab
        have hh : hasAcronym a entity = true := by
          simp [hasAcronym, hc, hb]
        rw [hh]
        unfold eFin
        rw [entityStep_find?_self fa ad st entity a hc hb]
        cases hf : find? a st <;> simp [hf]
      · have hh : hasAcronym a entity = false := by
          simp only [hasAcronym, hc, decide_eq_false_iff_not, not_and]
          intro h1
          obtain rfl : b = a := by injection h1
          exact absurd rfl hab
        rw [hh]
        unfold eFin
        rw [entityStep_find?_ne fa ad st entity a
          (fun a' ha' hna' => by rw [hc] at ha'; injection ha' with hba; rw [← hba]; exact hab)]
        simp

theorem entityStep_eNum (fa : ℚ) (ad : Option String) (st : List (String × EntityAgg))
    (entity : EntityEntry) (a : String) :
    eNum (entityStep fa ad st entity) a =
      eNum st a + (if hasAcronym a entity then 1 else 0) := by
  cases hc : entity.acronym with
  | none =>
    have hst : entityStep fa ad st entity = st := by unfold entityStep; rw [hc]
    have hh : hasAcronym a entity = false := by simp [hasAcronym, hc]
    rw [hst, hh]
    simp
  | some b =>
    by_cases hb : b = ""
    · have hst : entityStep fa ad st entity = st := by
        unfold entityStep; rw [hc]; dsimp only; rw [if_pos hb]
      have hh : hasAcronym a entity = false := by
        subst hb
        simp only [hasAcronym, hc, decide_eq_false_iff_not, not_and]
        intro h1 h2
        obtain rfl : "" = a := by injection h1
        exact h2 rfl
      rw [hst, hh]
      simp
    · by_cases hab : a = b
      · subst hab
        have hh : hasAcronym a entity = true := by
          simp [hasAcronym, hc, hb]
        rw [hh]
        unfold eNum
        rw [entityStep_find?_self fa ad st entity a hc hb]
        cases hf : find? a st <;> simp [hf]
      · have hh : hasAcronym a entity = false := by
          simp only [hasAcronym, hc, decide_eq_false_iff_not, not_and]
          intro h1
          obtain rfl : b = a := by injection h1
          exact absurd rfl hab
        rw [hh]
        unfold eNum
        rw [entityStep_find?_ne fa ad st entity a
          (fun a' ha' hna' => by rw [hc] at ha'; injection ha' with hba; rw [← hba]; exact hab)]
        simp

theorem entityStep_total (fa : ℚ) (ad : Option String) (st : List (String × EntityAgg))
    (entity : EntityEntry) :
    totalEFin (entityStep fa ad st entity) =
      totalEFin st + (if truthyAcronym entity then fa else 0) := by
  cases htr : truthyAcronym entity with
  | false => rw [entityStep_skip fa ad st entity htr]; simp
  | true =>
    obtain ⟨b, hc, hne⟩ : ∃ b, entity.acronym = some b ∧ b ≠ "" := by
      unfold truthyAcronym at htr
      cases hc : entity.acronym with
      | none => rw [hc] at htr; cases htr
      | some s =>
        rw [hc] at htr
        exact ⟨s, rfl, by simpa using htr⟩
    unfold entityStep
    rw [hc]
    dsimp only
    rw [if_neg hne]
    by_cases hf : (find? b st).isSome
    · rw [if_pos hf, totalEFin_updateEntry _ _ _ hf]
      simp
    · rw [if_neg hf]
      have hnone : find? b st = none := Option.not_isSome_iff_eq_none.mp hf
      have hsome : (find? b (st ++
          [(b, { entity := (some b).getD ""
                 name := entity.name.getD ""
                 dae := if entity.access = some "Direct" then "TRUE" else "FALSE"
                 entityType := entity.entityType.getD ""
                 sector := entity.sector
                 numApproved := 0
                 faFinancing := 0
                 approvalDate := ad })])).isSome = true := by
        rw [find?_append_of_none hnone]
        simp [find?]
      rw [totalEFin_updateEntry _ _ _ hsome, totalEFin_append_single]
      simp

theorem entitiesInner_total (fa : ℚ) (ad : Option String) (entities : List EntityEntry)
    (st : List (String × EntityAgg)) :
    totalEFin (entitiesInner fa ad st entities) =
      totalEFin st + (entities.countP truthyAcronym : ℚ) * fa := by
  induction entities generalizing st with
  | nil => simp [entitiesInner]
  | cons e es ih =>
    simp only [entitiesInner, List.foldl_cons] at ih ⊢
    rw [ih, entityStep_total, List.countP_cons]
    cases h : truthyAcronym e with
    | false => simp [h]
    | true =>
      simp only [h, if_true]
      push_cast
      ring

theorem entitiesInner_delta (fa : ℚ) (ad : Option String) (entities : List EntityEntry)
    (st : List (String × EntityAgg)) (a : String) :
    eFin (entitiesInner fa ad st entities) a =
        eFin st a + (entities.countP (hasAcronym a) : ℚ) * fa ∧
      eNum (entitiesInner fa ad st entities) a =
        eNum st a + entities.countP (hasAcronym a) := by
  induction entities generalizing st with
  | nil => simp [entitiesInner]
  | cons e es ih =>
    simp only [entitiesInner, List.foldl_cons] at ih ⊢
    obtain ⟨ihF, ihN⟩ := ih (entityStep fa ad st e)
    rw [ihF, ihN, entityStep_eFin, entityStep_eNum, List.countP_cons]
    cases h : hasAcronym a e with
    | false => simp [h]
    | true =>
      constructor
      · simp only [h, if_true]
        push_cast
        ring
      · simp only [h, if_true]
        omega

theorem entityStep_keys (fa : ℚ) (ad : Option String) (st : List (String × EntityAgg))
    (entity : EntityEntry) (a : String)
    (h : (find? a (entityStep fa ad st entity)).isSome = true) :
    (find? a st).isSome = true ∨ (entity.acronym = some a ∧ a ≠ "") := by
  cases hc : entity.acronym with
  | none =>
    have hst : entityStep fa ad st entity = st := by unfold entityStep; rw [hc]
    rw [hst] at h
    exact Or.inl h
  | some b =>
    by_cases hb : b = ""
    · have hst : entityStep fa ad st entity = st := by
        unfold entityStep; rw [hc]; dsimp only; rw [if_pos hb]
      rw [hst] at h
      exact Or.inl h
    · by_cases hab : a = b
      · subst hab
        exact Or.inr ⟨rfl, hb⟩
      · rw [entityStep_find?_ne fa ad st entity a
          (fun a' ha' hna' => by rw [hc] at ha'; injection ha' with hba; rw [← hba]; exact hab)] at h
        exact Or.inl h

theorem entitiesInner_keys (fa : ℚ) (ad : Option String) (entities : List EntityEntry)
    (st : List (String × EntityAgg)) (a : String)
    (h : (find? a (entitiesInner fa ad st entities)).isSome = true) :
    (find? a st).isSome = true ∨ ∃ e ∈ entities, e.acronym = some a ∧ a ≠ "" := by
  induction entities generalizing st with
  | nil => exact Or.inl h
  | cons e es ih =>
    simp only [entitiesInner, List.foldl_cons] at h
    rcases ih (entityStep fa ad st e) h with hin | ⟨e', he', hacr⟩
    · rcases entityStep_keys fa ad st e a hin with hin' | hacr
      · exact Or.inl hin'
      · exact Or.inr ⟨e, List.mem_cons_self _ _, hacr⟩
    · exact Or.inr ⟨e', List.mem_cons_of_mem _ he', hacr⟩

theorem entitiesStep_ok {st : List (String × EntityAgg)} {r : ProjectRecord}
    {st' : List (String × EntityAgg)} (hok : entitiesStep st r = Except.ok st') :
    ∃ ad, format_date r.approvalDate = Except.ok ad ∧
      st' = entitiesInner (pyFunding r) ad st r.entities := by
  unfold entitiesStep at hok
  cases hfd : format_date r.approvalDate with
  | error e => rw [hfd] at hok; cases hok
  | ok ad =>
    rw [hfd] at hok
    dsimp only at hok
    simp only [Except.ok.injEq] at hok
    exact ⟨ad, rfl, hok.symm⟩

/-! ### Claim C4 -/

/-- Claim C4: a successful entity aggregation step adds the record's full,
unsplit funding to the accumulator of every listed entity with a truthy
acronym (once per listing) and bumps its `# Approved` accordingly; in
total a record with `k` such entities contributes `k · F`; and entries
without an acronym are skipped entirely — every aggregate key comes from a
listed entity's actual acronym, never from a sentinel. -/
theorem entity_full_funding (st : List (String × EntityAgg)) (r : ProjectRecord)
    (st' : List (String × EntityAgg)) (hok : entitiesStep st r = Except.ok st') :
    (∀ a, eFin st' a = eFin st a + (r.entities.countP (hasAcronym a) : ℚ) * pyFunding r ∧
        eNum st' a = eNum st a + r.entities.countP (hasAcronym a)) ∧
      totalEFin st' = totalEFin st + (r.entities.countP truthyAcronym : ℚ) * pyFunding r ∧
      (∀ a, (find? a st').isSome = true →
        (find? a st).isSome = true ∨ ∃ e ∈ r.entities, e.acronym = some a ∧ a ≠ "") := by
  obtain ⟨ad, had, hst⟩ := entitiesStep_ok hok
  subst hst
  exact ⟨fun a => entitiesInner_delta (pyFunding r) ad r.entities st a,
    entitiesInner_total (pyFunding r) ad r.entities st,
    fun a => entitiesInner_keys (pyFunding r) ad r.entities st a⟩

/-! ### Claim C9: first-seen metadata is retained -/

theorem countryStep_cMeta (pf : ℚ) (ad : Option String) (st : List (String × CountryAgg))
    (country : CountryEntry) (c : String) (h : (find? c st).isSome = true) :
    cMeta (countryStep pf ad st country) c = cMeta st c ∧
      (find? c (countryStep pf ad st country)).isSome = true := by
  cases hc : country.iso3 with
  | none =>
    have hst : countryStep pf ad st country = st := by unfold countryStep; rw [hc]
    rw [hst]
    exact ⟨rfl, h⟩
  | some s =>
    by_cases hs : s = ""
    · have hst : countryStep pf ad st country = st := by
        unfold countryStep; rw [hc]; dsimp only; rw [if_pos hs]
      rw [hst]
      exact ⟨rfl, h⟩
    · by_cases hcs : c = s
      · subst hcs
        obtain ⟨e, hf⟩ := Option.isSome_iff_exists.mp h
        have hself := countryStep_find?_self pf ad st country c hc hs
        rw [hf] at hself
        constructor
        · unfold cMeta
          rw [hself, hf]
          rfl
        · rw [hself]
          rfl
      · have hne : find? c (countryStep pf ad st country) = find? c st :=
          countryStep_find?_ne pf ad st country c
            (fun c' hc' hn' => by rw [hc] at hc'; injection hc' with hsc; rw [← hsc]; exact hcs)
        exact ⟨by unfold cMeta; rw [hne], by rw [hne]; exact h⟩

theorem countriesInner_cMeta (pf : ℚ) (ad : Option String) (countries : List CountryEntry)
    (st : List (String × CountryAgg)) (c : String) (h : (find? c st).isSome = true) :
    cMeta (countriesInner pf ad st countries) c = cMeta st c ∧
      (find? c (countriesInner pf ad st countries)).isSome = true := by
  induction countries generalizing st with
  | nil => exact ⟨rfl, h⟩
  | cons co cos ih =>
    simp only [countriesInner, List.foldl_cons] at ih ⊢
    obtain ⟨hm, hsome⟩ := countryStep_cMeta pf ad st co c h
    obtain ⟨hm', hsome'⟩ := ih (countryStep pf ad st co) hsome
    exact ⟨hm'.trans hm, hsome'⟩

theorem countriesFold_cMeta (records : List ProjectRecord)
    (st st' : List (String × CountryAgg)) (c : String)
    (hok : countriesFold st records = Except.ok st') (h : (find? c st).isSome = true) :
    cMeta st' c = cMeta st c := by
  induction records generalizing st with
  | nil =>
    simp only [countriesFold, Except.ok.injEq] at hok
    subst hok
    rfl
  | cons r rest ih =>
    unfold countriesFold at hok
    cases hstep : countriesStep st r with
    | error e => rw [hstep] at hok; cases hok
    | ok st1 =>
      rw [hstep] at hok
      obtain ⟨hlen, ad, had, hst1⟩ := countriesStep_ok hstep
      subst hst1
      obtain ⟨hm, hsome⟩ := countriesInner_cMeta
        (pyFunding r / (r.countries.length : ℚ)) ad r.countries st c h
      exact (ih _ hok hsome).trans hm

theorem entityStep_eMeta (fa : ℚ) (ad : Option String) (st : List (String × EntityAgg))
    (entity : EntityEntry) (a : String) (h : (find? a st).isSome = true) :
    eMeta (entityStep fa ad st entity) a = eMeta st a ∧
      (find? a (entityStep fa ad st entity)).isSome = true := by
  cases hc : entity.acronym with
  | none =>
    have hst : entityStep fa ad st entity = st := by unfold entityStep; rw [hc]
    rw [hst]
    exact ⟨rfl, h⟩
  | some s =>
    by_cases hs : s = ""
    · have hst : entityStep fa ad st entity = st := by
        unfold entityStep; rw [hc]; dsimp only; rw [if_pos hs]
      rw [hst]
      exact ⟨rfl, h⟩
    · by_cases has : a = s
      · subst has
        obtain ⟨e, hf⟩ := Option.isSome_iff_exists.mp h
        have hself := entityStep_find?_self fa ad st entity a hc hs
        rw [hf] at hself
        constructor
        · unfold eMeta
          rw [hself, hf]
          rfl
        · rw [hself]
          rfl
      · have hne : find? a (entityStep fa ad st entity) = find? a st :=
          entityStep_find?_ne fa ad st entity a
            (fun a' ha' hn' => by rw [hc] at ha'; injection ha' with hsa; rw [← hsa]; exact has)
        exact ⟨by unfold eMeta; rw [hne], by rw [hne]; exact h⟩

theorem entitiesInner_eMeta (fa : ℚ) (ad : Option String) (entities : List EntityEntry)
    (st : List (String × EntityAgg)) (a : String) (h : (find? a st).isSome = true) :
    eMeta (entitiesInner fa ad st entities) a = eMeta st a ∧
      (find? a (entitiesInner fa ad st entities)).isSome = true := by
  induction entities generalizing st with
  | nil => exact ⟨rfl, h⟩
  | cons e es ih =>
    simp only [entitiesInner, List.foldl_cons] at ih ⊢
    obtain ⟨hm, hsome⟩ := entityStep_eMeta fa ad st e a h
    obtain ⟨hm', hsome'⟩ := ih (entityStep fa ad st e) hsome
    exact ⟨hm'.trans hm, hsome'⟩

theorem entitiesFold_eMeta (records : List ProjectRecord)
    (st st' : List (String × EntityAgg)) (a : String)
    (hok : entitiesFold st records = Except.ok st') (h : (find? a st).isSome = true) :
    eMeta st' a = eMeta st a := by
  induction records generalizing st with
  | nil =>
    simp only [entitiesFold, Except.ok.injEq] at hok
    subst hok
    rfl
  | cons r rest ih =>
    unfold entitiesFold at hok
    cases hstep : entitiesStep st r with
    | error e => rw [hstep] at hok; cases hok
    | ok st1 =>
      rw [hstep] at hok
      obtain ⟨ad, had, hst1⟩ := entitiesStep_ok hstep
      subst hst1
      obtain ⟨hm, hsome⟩ := entitiesInner_eMeta (pyFunding r) ad r.entities st a h
      exact (ih _ hok hsome).trans hm

/-- Claim C9: in both aggregators, once a key has a row, folding any
further records leaves every non-accumulator field of that row (country
name, region, LDC/SIDS flags, entity name, DAE, type, sector, first-seen
approval date) unchanged, even when later records disagree — only the
`FA Financing` and `# FA` / `# Approved` accumulators move. -/
theorem first_seen_metadata_retained (records : List ProjectRecord)
    (cst cst' : List (String × CountryAgg)) (est est' : List (String × EntityAgg))
    (c a : String)
    (hc : countriesFold cst records = Except.ok cst') (hcs : (find? c cst).isSome = true)
    (he : entitiesFold est records = Except.ok est') (hes : (find? a est).isSome = true) :
    cMeta cst' c = cMeta cst c ∧ eMeta est' a = eMeta est a :=
  ⟨countriesFold_cMeta records cst cst' c hc hcs,
    entitiesFold_eMeta records est est' a he hes⟩

/-! ### Witnesses -/

/-- Witness for claim C3 at the spec's Kenya/Uganda example record. -/
theorem country_split_conservation_witness :
    (cFin kenUgaState "KEN" =
        cFin [] "KEN" + pyFunding kenUgaRecord / (kenUgaRecord.countries.length : ℚ) ∧
      cNum kenUgaState "KEN" = cNum [] "KEN" + 1) ∧
      ((["KEN", "UGA"] : List String).map (fun c => cFin kenUgaState c - cFin [] c)).sum =
        pyFunding kenUgaRecord := by
  have h := country_split_conservation [] kenUgaRecord kenUgaState ["KEN", "UGA"]
    rfl rfl (by decide) (by decide)
  exact ⟨h.1 "KEN" (by decide), h.2⟩

/-- Witness for claim C4 at a record with two truthy-acronym entities and
one acronym-less entity. -/
theorem entity_full_funding_witness :
    (eFin threeEntityState "ADB" =
        eFin [] "ADB" +
          (threeEntityRecord.entities.countP (hasAcronym "ADB") : ℚ) *
            pyFunding threeEntityRecord ∧
      eNum threeEntityState "ADB" =
        eNum [] "ADB" + threeEntityRecord.entities.countP (hasAcronym "ADB")) ∧
      totalEFin threeEntityState =
        totalEFin [] +
          (threeEntityRecord.entities.countP truthyAcronym : ℚ) *
            pyFunding threeEntityRecord := by
  have h := entity_full_funding [] threeEntityRecord threeEntityState rfl
  exact ⟨h.1 "ADB", h.2.1⟩

/-- Witness for claim C7 at a record whose ref is "FP099". -/
theorem modality_rule_witness : fpRow.modality = "FP" :=
  (modality_rule fpRecord fpRow rfl).1 rfl

/-- Witness for claim C8 on the one-record list `[fpRecord]`. -/
theorem activities_one_to_one_witness :
    ([fpRow].length = [fpRecord].length) ∧
      List.Forall₂ (fun rec row => mapActivity rec = Except.ok row) [fpRecord] [fpRow] :=
  activities_one_to_one [fpRecord] [fpRow] rfl

/-- Witness for claim C9: a later record that disagrees on every metadata
field leaves the first-seen "KEN" and "ADB" metadata unchanged. -/
theorem first_seen_metadata_retained_witness :
    cMeta kenSeedState' "KEN" = cMeta kenSeedState "KEN" ∧
      eMeta adbSeedState' "ADB" = eMeta adbSeedState "ADB" :=
  first_seen_metadata_retained [disagreeingRecord] kenSeedState kenSeedState'
    adbSeedState adbSeedState' "KEN" "ADB" rfl rfl rfl rfl

/-- Witness for claim C10 at a record with two country entries of which
only one carries an ISO3. -/
theorem skipped_share_dropped_witness :
    totalCFin halfDroppedState = totalCFin [] +
      (halfDroppedRecord.countries.countP truthyIso3 : ℚ) *
        (pyFunding halfDroppedRecord / (halfDroppedRecord.countries.length : ℚ)) :=
  skipped_share_dropped [] halfDroppedRecord halfDroppedState rfl

end GCF
